import Mathlib

/-!
Shallow embedding of `src/data/scripts/polygon_io/polygon_io_fetcher.py`.

Dates are modelled as integers (days since an arbitrary epoch), so a Python
`timedelta` of days and a `date` subtraction both become plain `Int`
arithmetic.  The remote Polygon.io client (`self.client`) is modelled as a
function from a request record to the page it returns.  The `while` loops of
`getAggregateData`, `getWriteAggData` and `getAllTickers` are modelled as
fuel-indexed recursions returning `Option`; the public wrappers pass a fuel
that provably suffices (each range-loop iteration moves `curr_date_to` back
by `max_date_range + 1` days, each ticker-loop run is finite only if some
page comes back empty, so there the fuel stays an explicit argument).
-/

namespace PolygonIOFetcher

/-- The `Duration` enum of the source (granularity of the data). -/
inductive Duration where
  | SECONDS
  | MINUTES
  | HOURS
  | DAYS
  | WEEKS
  | MONTHS
  | QUARTER
  | YEAR
deriving DecidableEq, Repr

/-- The `value` payload of each `Duration` member. -/
def Duration.value : Duration → String
  | .SECONDS => "second"
  | .MINUTES => "minute"
  | .HOURS => "hour"
  | .DAYS => "day"
  | .WEEKS => "week"
  | .MONTHS => "month"
  | .QUARTER => "quarter"
  | .YEAR => "year"

/-- One aggregate bar (`polygon.rest.models.aggs.Agg`), with the attributes the
fetcher reads in `writeAggsToCSV`.  The numeric field values are opaque to the
fetcher, so they are modelled as integers (`open` is renamed `open_` because
`open` is a Lean keyword). -/
structure Agg where
  open_ : Int
  high : Int
  low : Int
  close : Int
  volume : Int
  vwap : Int
  timestamp : Int
  transactions : Option Int
  otc : Option Bool
deriving DecidableEq, Repr

/-- One call to `self.client.get_aggs(...)`, recording the keyword arguments
the source passes.  `adjusted` is an `Option` because the source's final
remainder request omits the `adjusted=` keyword entirely (lines 84-91 and
179-186): `some b` means the call passed `adjusted=b`, `none` means the call
left the client library's default in force.  (`to` is a reserved token in
Lean, so the source's `to` keyword argument is spelled `to_` here.) -/
structure AggReq where
  ticker : String
  multiplier : Int
  timespan : String
  from_ : Int
  to_ : Int
  adjusted : Option Bool
  limit : Nat
deriving DecidableEq, Repr

/-- Outcome of `getAggregateData`: either the `Exception("Polygon.io retrieval
limit reached")` escapes, or a list of bars is returned. -/
inductive AggFetchResult where
  | limitExceeded
  | ok (bars : List Agg)
deriving DecidableEq, Repr

/-- Outcome of `getWriteAggData` (which returns `None` on success). -/
inductive WriteFetchResult where
  | limitExceeded
  | done
deriving DecidableEq, Repr

/-- The code after the `while` loop of `getAggregateData` (lines 83-98): one
final `get_aggs` request for `[date_from, curr_date_to]` — note the missing
`adjusted=` keyword in the source, hence `adjusted := none` — followed by the
same limit / emptiness checks as in the loop. -/
def getAggsFinal (get_aggs : AggReq → List Agg) (ticker : String) (interval : Int)
    (interval_timespan : Duration) (date_from : Int) (limit : Nat)
    (curr_date_to : Int) (output : List Agg) : List AggReq × AggFetchResult :=
  let req : AggReq :=
    ⟨ticker, interval, interval_timespan.value, date_from, curr_date_to, none, limit⟩
  let aggs := get_aggs req
  if limit ≤ aggs.length then ([req], .limitExceeded)
  else if aggs.length = 0 then ([req], .ok output)
  else ([req], .ok (output ++ aggs))

/-- The `while curr_date_to - date_from >= self.max_date_range` loop of
`getAggregateData` (lines 61-81), as a fuel-indexed recursion.  Alongside the
source's `output` accumulator the model records the list of `get_aggs`
requests issued.  `none` means the fuel ran out before the loop exited; the
wrapper `getAggregateData` supplies fuel for which that provably cannot
happen.  Fuel is consumed only by loop iterations, so a run that goes
straight to the after-loop code succeeds even with fuel 0. -/
def getAggsLoop (get_aggs : AggReq → List Agg) (ticker : String) (interval : Int)
    (interval_timespan : Duration) (date_from : Int) (adjusted : Bool) (limit : Nat)
    (max_date_range : Nat) :
    Nat → Int → List Agg → Option (List AggReq × AggFetchResult)
  | 0, curr_date_to, output =>
    if (max_date_range : Int) ≤ curr_date_to - date_from then none
    else some (getAggsFinal get_aggs ticker interval interval_timespan date_from limit
      curr_date_to output)
  | fuel + 1, curr_date_to, output =>
    if (max_date_range : Int) ≤ curr_date_to - date_from then
      let curr_date_from := curr_date_to - (max_date_range : Int)
      let req : AggReq :=
        ⟨ticker, interval, interval_timespan.value, curr_date_from, curr_date_to,
          some adjusted, limit⟩
      let aggs := get_aggs req
      if limit ≤ aggs.length then some ([req], .limitExceeded)
      else if aggs.length = 0 then some ([req], .ok output)
      else
        match getAggsLoop get_aggs ticker interval interval_timespan date_from adjusted
            limit max_date_range fuel (curr_date_from - 1) (output ++ aggs) with
        | none => none
        | some (reqs, res) => some (req :: reqs, res)
    else some (getAggsFinal get_aggs ticker interval interval_timespan date_from limit
      curr_date_to output)

/-- Fuel adequacy for `getAggsLoop`: `(curr_date_to - date_from -
max_date_range + 1).toNat` iterations always suffice, because every iteration
moves `curr_date_to` back by `max_date_range + 1` days. -/
theorem getAggsLoop_isSome (get_aggs : AggReq → List Agg) (ticker : String)
    (interval : Int) (interval_timespan : Duration) (date_from : Int) (adjusted : Bool)
    (limit : Nat) (max_date_range : Nat) :
    ∀ (fuel : Nat) (curr_date_to : Int) (output : List Agg),
      (curr_date_to - date_from - max_date_range + 1).toNat ≤ fuel →
      (getAggsLoop get_aggs ticker interval interval_timespan date_from adjusted limit
        max_date_range fuel curr_date_to output).isSome := by
  intro fuel
  induction fuel with
  | zero =>
    intro curr_date_to output hfuel
    rw [getAggsLoop]
    split
    · omega
    · simp
  | succ fuel ih =>
    intro curr_date_to output hfuel
    rw [getAggsLoop]
    split
    · dsimp only
      split
      · simp
      · split
        · simp
        · have hrec := ih (curr_date_to - (max_date_range : Int) - 1)
            (output ++ get_aggs ⟨ticker, interval, interval_timespan.value,
              curr_date_to - (max_date_range : Int), curr_date_to, some adjusted, limit⟩)
            (by omega)
          revert hrec
          cases getAggsLoop get_aggs ticker interval interval_timespan date_from adjusted
              limit max_date_range fuel (curr_date_to - (max_date_range : Int) - 1)
              (output ++ get_aggs ⟨ticker, interval, interval_timespan.value,
                curr_date_to - (max_date_range : Int), curr_date_to, some adjusted,
                limit⟩) with
          | none => simp
          | some x => simp
    · simp

/-- `getAggregateData` (lines 42-98): paginate backwards from `date_to` in
windows of `self.max_date_range`, then fetch the remainder.  Returns the list
of `get_aggs` requests issued together with the outcome.  The fuel
`(date_to - date_from).toNat + 2` dominates the bound of
`getAggsLoop_isSome`, so the `Option` is discharged here once and for all. -/
def getAggregateData (get_aggs : AggReq → List Agg) (ticker : String) (interval : Int)
    (interval_timespan : Duration) (date_from : Int) (date_to : Int) (adjusted : Bool)
    (limit : Nat) (max_date_range : Nat) : List AggReq × AggFetchResult :=
  (getAggsLoop get_aggs ticker interval interval_timespan date_from adjusted limit
    max_date_range ((date_to - date_from).toNat + 2) date_to []).get
    (getAggsLoop_isSome get_aggs ticker interval interval_timespan date_from adjusted
      limit max_date_range _ date_to [] (by omega))

/-- One CSV cell.  The source writes Python values of several different types
into row tuples; a sum type keeps each serialized field's identity exact. -/
inductive Cell where
  | str (s : String)
  | int (i : Int)
  | bool (b : Bool)
  | optInt (v : Option Int)
  | optBool (v : Option Bool)
  | optStr (v : Option String)
deriving DecidableEq, Repr

/-- A CSV row: an ordered tuple of cells. -/
abbrev Row := List Cell

/-- The header tuple of `writeAggsToCSV` (line 102), exactly as in the source:
nine column names — the source omits a `"low"` column even though the data
rows serialize `agg.low`. -/
def aggsCSVHeader : Row :=
  [.str "ticker", .str "open", .str "high", .str "close", .str "volume", .str "vwap",
    .str "timestamp", .str "transactions", .str "otc"]

/-- The per-record tuple `writeAggsToCSV` writes (lines 118-129): ten fields,
in source order. -/
def aggRowTuple (ticker : String) (agg : Agg) : Row :=
  [.str ticker, .int agg.open_, .int agg.high, .int agg.low, .int agg.close,
    .int agg.volume, .int agg.vwap, .int agg.timestamp, .optInt agg.transactions,
    .optBool agg.otc]

/-- `writeAggsToCSV` (lines 100-130) as a function on file contents.  A file
is `none` when `os.path.isfile` is false and `some rows` otherwise; the header
is added iff the file is being overwritten (`append = false`, mode `'w'`) or
did not exist, and mode `'a'` keeps the existing rows in place while `'w'`
discards them. -/
def writeAggsToCSV (file : Option (List Row)) (ticker : String) (aggs : List Agg)
    (append : Bool) : List Row :=
  let add_header := !(append && file.isSome)
  let base := if append then file.getD [] else []
  base ++ (if add_header then [aggsCSVHeader] else []) ++ aggs.map (aggRowTuple ticker)

/-- The after-loop block of `getWriteAggData` (lines 178-192): issue the final
request (again without `adjusted=`), check it, and write the page if it is
non-empty.  The middle component collects the pages passed to
`writeAggsToCSV`, in call order. -/
def getWriteAggFinal (get_aggs : AggReq → List Agg) (ticker : String) (interval : Int)
    (interval_timespan : Duration) (date_from : Int) (limit : Nat)
    (curr_date_to : Int) : List AggReq × List (List Agg) × WriteFetchResult :=
  let req : AggReq :=
    ⟨ticker, interval, interval_timespan.value, date_from, curr_date_to, none, limit⟩
  let aggs := get_aggs req
  if limit ≤ aggs.length then ([req], [], .limitExceeded)
  else if aggs.length = 0 then ([req], [], .done)
  else ([req], [aggs], .done)

/-- The `while` loop of `getWriteAggData` (lines 155-176): identical pagination
to `getAggsLoop`, but each non-empty page is passed to `writeAggsToCSV`
immediately instead of being accumulated.  The pages written are collected in
call order. -/
def getWriteAggLoop (get_aggs : AggReq → List Agg) (ticker : String) (interval : Int)
    (interval_timespan : Duration) (date_from : Int) (adjusted : Bool) (limit : Nat)
    (max_date_range : Nat) :
    Nat → Int → Option (List AggReq × List (List Agg) × WriteFetchResult)
  | 0, curr_date_to =>
    if (max_date_range : Int) ≤ curr_date_to - date_from then none
    else some (getWriteAggFinal get_aggs ticker interval interval_timespan date_from limit
      curr_date_to)
  | fuel + 1, curr_date_to =>
    if (max_date_range : Int) ≤ curr_date_to - date_from then
      let curr_date_from := curr_date_to - (max_date_range : Int)
      let req : AggReq :=
        ⟨ticker, interval, interval_timespan.value, curr_date_from, curr_date_to,
          some adjusted, limit⟩
      let aggs := get_aggs req
      if limit ≤ aggs.length then some ([req], [], .limitExceeded)
      else if aggs.length = 0 then some ([req], [], .done)
      else
        match getWriteAggLoop get_aggs ticker interval interval_timespan date_from adjusted
            limit max_date_range fuel (curr_date_from - 1) with
        | none => none
        | some (reqs, pages, res) => some (req :: reqs, aggs :: pages, res)
    else some (getWriteAggFinal get_aggs ticker interval interval_timespan date_from limit
      curr_date_to)

/-- Fuel adequacy for `getWriteAggLoop`, with the same bound as
`getAggsLoop_isSome`. -/
theorem getWriteAggLoop_isSome (get_aggs : AggReq → List Agg) (ticker : String)
    (interval : Int) (interval_timespan : Duration) (date_from : Int) (adjusted : Bool)
    (limit : Nat) (max_date_range : Nat) :
    ∀ (fuel : Nat) (curr_date_to : Int),
      (curr_date_to - date_from - max_date_range + 1).toNat ≤ fuel →
      (getWriteAggLoop get_aggs ticker interval interval_timespan date_from adjusted limit
        max_date_range fuel curr_date_to).isSome := by
  intro fuel
  induction fuel with
  | zero =>
    intro curr_date_to hfuel
    rw [getWriteAggLoop]
    split
    · omega
    · simp
  | succ fuel ih =>
    intro curr_date_to hfuel
    rw [getWriteAggLoop]
    split
    · dsimp only
      split
      · simp
      · split
        · simp
        · have hrec := ih (curr_date_to - (max_date_range : Int) - 1) (by omega)
          revert hrec
          cases getWriteAggLoop get_aggs ticker interval interval_timespan date_from
              adjusted limit max_date_range fuel
              (curr_date_to - (max_date_range : Int) - 1) with
          | none => simp
          | some x => simp
    · simp

/-- `getWriteAggData` (lines 132-192): same pagination as `getAggregateData`,
but each fetched page is written straight to the CSV file.  The model returns
the requests issued, the pages handed to `writeAggsToCSV` (in order), and
whether the retrieval-limit exception escaped; its effect on the file is
folding `writeAggsToCSV … true` over those pages. -/
def getWriteAggData (get_aggs : AggReq → List Agg) (ticker : String) (interval : Int)
    (interval_timespan : Duration) (date_from : Int) (date_to : Int) (adjusted : Bool)
    (limit : Nat) (max_date_range : Nat) :
    List AggReq × List (List Agg) × WriteFetchResult :=
  (getWriteAggLoop get_aggs ticker interval interval_timespan date_from adjusted limit
    max_date_range ((date_to - date_from).toNat + 2) date_to).get
    (getWriteAggLoop_isSome get_aggs ticker interval interval_timespan date_from adjusted
      limit max_date_range _ date_to (by omega))

/-- One ticker record (`polygon.rest.models.tickers.Ticker`), with the
attributes the fetcher reads (`type` is renamed `type_` because `type` reads
badly as a Lean field).  Only `ticker` steers pagination; the remaining
fields are opaque payload. -/
structure Ticker where
  ticker : String
  active : Bool
  cik : Option String
  composite_figi : Option String
  currency_name : Option String
  currency_symbol : Option String
  base_currency_symbol : Option String
  base_currency_name : Option String
  delisted_utc : Option String
  last_updated_utc : Option String
  locale : Option String
  market : Option String
  primary_exchange : Option String
  share_class_figi : Option String
  type_ : Option String
  source_feed : Option String
deriving DecidableEq, Repr

instance : Inhabited Ticker :=
  ⟨⟨"", false, none, none, none, none, none, none, none, none, none, none, none, none,
    none, none⟩⟩

/-- The `while len(tickers) > 0` loop of `getAllTickers` (lines 211-214):
cursor pagination via `ticker_gt = output[-1].ticker`.  The client is a
function from the `ticker_gt` cursor (`none` on the first call, which has no
cursor) to the returned page; `type`, `market`, `sort` and `limit` are fixed
for a whole run and therefore folded into that function.  The returned list
records the cursor of every request issued by the loop.  Termination depends
on the provider eventually returning an empty page, so the fuel stays an
explicit argument and `none` reports that it ran out. -/
def getAllTickersLoop (list_tickers : Option String → List Ticker) :
    Nat → List Ticker → List Ticker → Option (List (Option String) × List Ticker)
  | fuel, output, tickers =>
    if 0 < tickers.length then
      match fuel with
      | 0 => none
      | fuel + 1 =>
        let last_ticker := output.getLast?.getD default
        let page := list_tickers (some last_ticker.ticker)
        match getAllTickersLoop list_tickers fuel (output ++ page) page with
        | none => none
        | some (cursors, out) => some (some last_ticker.ticker :: cursors, out)
    else some ([], output)

/-- `getAllTickers` (lines 196-216): first request with no cursor, then the
loop.  Returns the cursors of all requests issued (`none` first) and the
concatenated output, or `none` if the fuel ran out before an empty page. -/
def getAllTickers (list_tickers : Option String → List Ticker) (fuel : Nat) :
    Option (List (Option String) × List Ticker) :=
  let tickers := list_tickers none
  let output := tickers
  match getAllTickersLoop list_tickers fuel output tickers with
  | none => none
  | some (cursors, out) => some (none :: cursors, out)

/-- The header tuple of `writeTickersToCSV` (lines 221-238), exactly as in the
source. -/
def tickersCSVHeader : Row :=
  [.str "ticker", .str "active", .str "cik", .str "composite_figi",
    .str "currency_name", .str "currency_symbol", .str "base_currency_symbol",
    .str "base_currency_name", .str "delisted_utc", .str "last_updated_utc",
    .str "locale", .str "market", .str "primary_exchange", .str "share_class_figi",
    .str "type", .str "source_feed"]

/-- The per-record tuple `writeTickersToCSV` writes (lines 254-271). -/
def tickerRowTuple (t : Ticker) : Row :=
  [.str t.ticker, .bool t.active, .optStr t.cik, .optStr t.composite_figi,
    .optStr t.currency_name, .optStr t.currency_symbol, .optStr t.base_currency_symbol,
    .optStr t.base_currency_name, .optStr t.delisted_utc, .optStr t.last_updated_utc,
    .optStr t.locale, .optStr t.market, .optStr t.primary_exchange,
    .optStr t.share_class_figi, .optStr t.type_, .optStr t.source_feed]

/-- `writeTickersToCSV` (lines 219-272) as a function on file contents, with
the same header/append/truncate policy as `writeAggsToCSV`. -/
def writeTickersToCSV (file : Option (List Row)) (tickers : List Ticker)
    (append : Bool) : List Row :=
  let add_header := !(append && file.isSome)
  let base := if append then file.getD [] else []
  base ++ (if add_header then [tickersCSVHeader] else []) ++ tickers.map tickerRowTuple

/-- The after-loop block always issues exactly one request, with `adjusted`
omitted, and the emptiness branch folds into the append because an empty page
appends nothing. -/
theorem getAggsFinal_eq (get_aggs : AggReq → List Agg) (ticker : String) (interval : Int)
    (interval_timespan : Duration) (date_from : Int) (limit : Nat) (curr_date_to : Int)
    (output : List Agg) :
    getAggsFinal get_aggs ticker interval interval_timespan date_from limit curr_date_to
        output =
      ([⟨ticker, interval, interval_timespan.value, date_from, curr_date_to, none, limit⟩],
        if limit ≤ (get_aggs ⟨ticker, interval, interval_timespan.value, date_from,
            curr_date_to, none, limit⟩).length then
          .limitExceeded
        else
          .ok (output ++ get_aggs ⟨ticker, interval, interval_timespan.value, date_from,
            curr_date_to, none, limit⟩)) := by
  simp only [getAggsFinal]
  split_ifs with h1 h2
  · rfl
  · rw [List.length_eq_zero.mp h2]
    simp
  · rfl

/-- Trace structure of the after-loop block, in the shape used by
`getAggsLoop_trace`. -/
theorem getAggsFinal_trace (get_aggs : AggReq → List Agg) (ticker : String) (interval : Int)
    (interval_timespan : Duration) (date_from : Int) (limit : Nat) (curr_date_to : Int)
    (output : List Agg) (reqs : List AggReq) (res : AggFetchResult)
    (h : getAggsFinal get_aggs ticker interval interval_timespan date_from limit
      curr_date_to output = (reqs, res)) :
    ∃ rs r, reqs = rs ++ [r] ∧
      (∀ x ∈ rs, 0 < (get_aggs x).length ∧ (get_aggs x).length < limit) ∧
      (limit ≤ (get_aggs r).length → res = .limitExceeded) ∧
      ((get_aggs r).length < limit →
        res = .ok (output ++ (reqs.map get_aggs).flatten)) := by
  rw [getAggsFinal_eq] at h
  injection h with h1 h2
  subst h1
  subst h2
  refine ⟨[], _, rfl, by simp, fun hlim => by rw [if_pos hlim], fun hlt => ?_⟩
  rw [if_neg (not_le.mpr hlt)]
  simp

/-- Trace structure of the range-pagination loop: whenever it completes, the
request list splits as `rs ++ [r]` where every page before the last was
non-empty and below the limit (otherwise the loop would have stopped there),
and the outcome is decided by the last page: at or above the limit the
exception escapes, below the limit the result is everything accumulated plus
every returned page in order (an empty last page contributes nothing). -/
theorem getAggsLoop_trace (get_aggs : AggReq → List Agg) (ticker : String) (interval : Int)
    (interval_timespan : Duration) (date_from : Int) (adjusted : Bool) (limit : Nat)
    (max_date_range : Nat) :
    ∀ (fuel : Nat) (curr_date_to : Int) (output : List Agg) (reqs : List AggReq)
      (res : AggFetchResult),
      getAggsLoop get_aggs ticker interval interval_timespan date_from adjusted limit
        max_date_range fuel curr_date_to output = some (reqs, res) →
      ∃ rs r, reqs = rs ++ [r] ∧
        (∀ x ∈ rs, 0 < (get_aggs x).length ∧ (get_aggs x).length < limit) ∧
        (limit ≤ (get_aggs r).length → res = .limitExceeded) ∧
        ((get_aggs r).length < limit →
          res = .ok (output ++ (reqs.map get_aggs).flatten)) := by
  intro fuel
  induction fuel with
  | zero =>
    intro curr_date_to output reqs res h
    rw [getAggsLoop] at h
    split at h
    · exact absurd h (by simp)
    · injection h with h
      exact getAggsFinal_trace _ _ _ _ _ _ _ _ _ _ h
  | succ fuel ih =>
    intro curr_date_to output reqs res h
    rw [getAggsLoop] at h
    split at h
    case isFalse =>
      injection h with h
      exact getAggsFinal_trace _ _ _ _ _ _ _ _ _ _ h
    · dsimp only at h
      split at h
      · next hlim =>
        injection h with h
        injection h with h1 h2
        subst h1
        subst h2
        exact ⟨[], _, rfl, by simp, fun _ => rfl,
          fun hlt => absurd hlim (not_le.mpr hlt)⟩
      · next hlim =>
        split at h
        · next hzero =>
          injection h with h
          injection h with h1 h2
          subst h1
          subst h2
          refine ⟨[], _, rfl, by simp, fun hl => absurd hl hlim, fun _ => ?_⟩
          rw [List.length_eq_zero] at hzero
          simp [hzero]
        · next hzero =>
          rename_i hcond
          revert h
          cases hrec : getAggsLoop get_aggs ticker interval interval_timespan date_from
              adjusted limit max_date_range fuel (curr_date_to - (max_date_range : Int) - 1)
              (output ++ get_aggs ⟨ticker, interval, interval_timespan.value,
                curr_date_to - (max_date_range : Int), curr_date_to, some adjusted,
                limit⟩) with
          | none => intro h; exact absurd h (by simp)
          | some p =>
            obtain ⟨reqs', res'⟩ := p
            intro h
            injection h with h
            injection h with h1 h2
            subst h1
            subst h2
            obtain ⟨rs', r, hsplit, hgood, hlimres, hokres⟩ :=
              ih _ _ _ _ hrec
            refine ⟨_ :: rs', r, by rw [hsplit]; rfl, ?_, hlimres, ?_⟩
            · intro x hx
              rcases List.mem_cons.mp hx with hx | hx
              · subst hx
                exact ⟨Nat.pos_of_ne_zero fun h0 => hzero h0, lt_of_not_le hlim⟩
              · exact hgood x hx
            · intro hlt
              rw [hokres hlt, hsplit]
              simp

/-- The wrapper `getAggregateData` is the loop run at the wrapper's fuel. -/
theorem getAggregateData_eq_some (get_aggs : AggReq → List Agg) (ticker : String)
    (interval : Int) (interval_timespan : Duration) (date_from : Int) (date_to : Int)
    (adjusted : Bool) (limit : Nat) (max_date_range : Nat) :
    getAggsLoop get_aggs ticker interval interval_timespan date_from adjusted limit
        max_date_range ((date_to - date_from).toNat + 2) date_to [] =
      some (getAggregateData get_aggs ticker interval interval_timespan date_from date_to
        adjusted limit max_date_range) :=
  (Option.some_get _).symm

/-- A sample bar with pairwise distinct field values. -/
def sampleAgg : Agg :=
  ⟨11, 22, 33, 44, 55, 66, 77, some 88, some true⟩

/-- A provider returning a one-bar page for every request. -/
def oneBarPages : AggReq → List Agg := fun _ => [sampleAgg]

/-- A provider returning a two-bar page for every request. -/
def twoBarPages : AggReq → List Agg := fun _ => [sampleAgg, sampleAgg]

/-- A provider returning an empty page for every request. -/
def emptyPages : AggReq → List Agg := fun _ => []

/-- Window shape of the range-pagination loop when every page is non-empty
and below the limit: starting from `curr_date_to - date_from =
k * (max_date_range + 1) + t` with `-1 ≤ t < max_date_range`, the loop issues
exactly `k` window requests — the `j`-th covering the `max_date_range`-day
span ending at `curr_date_to - j * (max_date_range + 1)` — and then the
single remainder request `[date_from, date_from + t]`. -/
theorem getAggsLoop_windows (get_aggs : AggReq → List Agg) (ticker : String)
    (interval : Int) (interval_timespan : Duration) (date_from : Int) (adjusted : Bool)
    (limit : Nat) (max_date_range : Nat)
    (hgood : ∀ q : AggReq, 0 < (get_aggs q).length ∧ (get_aggs q).length < limit) :
    ∀ (k : Nat) (t : Int), -1 ≤ t → t < max_date_range →
    ∀ (fuel : Nat) (curr_date_to : Int) (output : List Agg), k ≤ fuel →
      curr_date_to - date_from = k * ((max_date_range : Int) + 1) + t →
      ∃ res, getAggsLoop get_aggs ticker interval interval_timespan date_from adjusted
          limit max_date_range fuel curr_date_to output =
        some ((List.range k).map (fun j =>
            ⟨ticker, interval, interval_timespan.value,
              curr_date_to - j * ((max_date_range : Int) + 1) - max_date_range,
              curr_date_to - j * ((max_date_range : Int) + 1), some adjusted, limit⟩)
          ++ [⟨ticker, interval, interval_timespan.value, date_from, date_from + t,
            none, limit⟩], res) := by
  intro k
  induction k with
  | zero =>
    intro t ht1 ht2 fuel curr_date_to output hfuel hgap
    simp only [Nat.cast_zero, zero_mul, zero_add] at hgap
    have hlt : ¬ ((max_date_range : Int) ≤ curr_date_to - date_from) := by omega
    have hct : curr_date_to = date_from + t := by omega
    subst hct
    cases fuel with
    | zero =>
      rw [getAggsLoop, if_neg hlt, getAggsFinal_eq]
      exact ⟨_, rfl⟩
    | succ fuel =>
      rw [getAggsLoop, if_neg hlt, getAggsFinal_eq]
      exact ⟨_, rfl⟩
  | succ k ih =>
    intro t ht1 ht2 fuel curr_date_to output hfuel hgap
    have hknn : (0:Int) ≤ (k : Int) * ((max_date_range : Int) + 1) := by positivity
    have hgap' : curr_date_to - date_from =
        (k : Int) * ((max_date_range : Int) + 1) + ((max_date_range : Int) + 1) + t := by
      rw [hgap]; push_cast; ring
    have hge : (max_date_range : Int) ≤ curr_date_to - date_from := by omega
    obtain ⟨f1, rfl⟩ : ∃ f1, fuel = f1 + 1 := ⟨fuel - 1, by omega⟩
    rw [getAggsLoop, if_pos hge]
    dsimp only
    have hpage := hgood ⟨ticker, interval, interval_timespan.value,
      curr_date_to - (max_date_range : Int), curr_date_to, some adjusted, limit⟩
    rw [if_neg (not_le.mpr hpage.2), if_neg (by omega)]
    have hgaprec : (curr_date_to - (max_date_range : Int) - 1) - date_from =
        (k : Int) * ((max_date_range : Int) + 1) + t := by omega
    obtain ⟨res, hres⟩ := ih t ht1 ht2 f1 (curr_date_to - (max_date_range : Int) - 1)
      (output ++ get_aggs ⟨ticker, interval, interval_timespan.value,
        curr_date_to - (max_date_range : Int), curr_date_to, some adjusted, limit⟩)
      (by omega) hgaprec
    rw [hres]
    refine ⟨res, ?_⟩
    simp only [Option.some.injEq, Prod.mk.injEq, and_true]
    rw [List.range_succ_eq_map, List.map_cons, List.map_map, List.cons_append]
    have h0 : (⟨ticker, interval, interval_timespan.value,
        curr_date_to - (max_date_range : Int), curr_date_to, some adjusted,
        limit⟩ : AggReq) =
        ⟨ticker, interval, interval_timespan.value,
          curr_date_to - (0 : Nat) * ((max_date_range : Int) + 1) - max_date_range,
          curr_date_to - (0 : Nat) * ((max_date_range : Int) + 1), some adjusted,
          limit⟩ := by
      simp
    rw [h0]
    congr 1
    congr 1
    apply List.map_congr_left
    intro j hj
    have hcast : ((j + 1 : Nat) : Int) = (j : Int) + 1 := by push_cast; ring
    simp only [Function.comp, AggReq.mk.injEq, true_and, and_true, hcast]
    constructor
    · ring
    · ring

/-- C2: whenever some response during a `getAggregateData` fetch has record
count at least `limit`, the fetch fails with the retrieval-limit exception
(`limitExceeded`, so the in-memory variant returns no bars at all — whatever
was accumulated before the failing window is lost) and the failing request is
the last one issued: no further (older) window is requested. -/
theorem c2_limit_reached_aborts_fetch (get_aggs : AggReq → List Agg) (ticker : String)
    (interval : Int) (interval_timespan : Duration) (date_from date_to : Int)
    (adjusted : Bool) (limit max_date_range : Nat) (i : Nat)
    (hi : i < (getAggregateData get_aggs ticker interval interval_timespan date_from
      date_to adjusted limit max_date_range).1.length)
    (hlim : limit ≤ (get_aggs ((getAggregateData get_aggs ticker interval
      interval_timespan date_from date_to adjusted limit max_date_range).1.get
        ⟨i, hi⟩)).length) :
    (getAggregateData get_aggs ticker interval interval_timespan date_from date_to
        adjusted limit max_date_range).2 = .limitExceeded ∧
      i + 1 = (getAggregateData get_aggs ticker interval interval_timespan date_from
        date_to adjusted limit max_date_range).1.length := by
  obtain ⟨rs, r, hsplit, hgood, hlimres, hokres⟩ :=
    getAggsLoop_trace get_aggs ticker interval interval_timespan date_from adjusted limit
      max_date_range _ date_to []
      (getAggregateData get_aggs ticker interval interval_timespan date_from date_to
        adjusted limit max_date_range).1
      (getAggregateData get_aggs ticker interval interval_timespan date_from date_to
        adjusted limit max_date_range).2
      (by rw [getAggregateData_eq_some])
  have hlen : (getAggregateData get_aggs ticker interval interval_timespan date_from
      date_to adjusted limit max_date_range).1.length = rs.length + 1 := by
    rw [hsplit]; simp
  by_cases hcase : i < rs.length
  · exfalso
    have hx : (getAggregateData get_aggs ticker interval interval_timespan date_from
        date_to adjusted limit max_date_range).1.get ⟨i, hi⟩ = rs.get ⟨i, hcase⟩ := by
      rw [List.get_eq_getElem, List.get_eq_getElem, List.getElem_of_eq hsplit,
        List.getElem_append_left]
    rw [hx] at hlim
    have := (hgood _ (List.get_mem rs i hcase)).2
    omega
  · have hieq : i = rs.length := by omega
    have hx : (getAggregateData get_aggs ticker interval interval_timespan date_from
        date_to adjusted limit max_date_range).1.get ⟨i, hi⟩ = r := by
      rw [List.get_eq_getElem, List.getElem_of_eq hsplit,
        List.getElem_concat_length rs r i hieq]
    rw [hx] at hlim
    exact ⟨hlimres hlim, by omega⟩

/-- Witness for `c2_limit_reached_aborts_fetch`: a single remainder request
whose page has exactly `limit = 2` bars. -/
theorem c2_limit_reached_aborts_fetch_witness :
    (getAggregateData twoBarPages "GOOGL" 1 .MINUTES 0 1 true 2 2).2 =
        .limitExceeded ∧
      0 + 1 = (getAggregateData twoBarPages "GOOGL" 1 .MINUTES 0 1 true 2 2).1.length :=
  c2_limit_reached_aborts_fetch twoBarPages "GOOGL" 1 .MINUTES 0 1 true 2 2 0
    (by decide) (by decide)

/-- C3 counterexample: with `limit = 0` an empty window response does NOT
terminate the fetch successfully — the `len(aggs) >= limit` check fires first
(`0 >= 0`), so the fetch raises the retrieval-limit exception instead of
returning the accumulated bars.  Here the very first window request
`[1, 3]` of a `[0, 3]` range (window 2) returns the empty page. -/
theorem c3_counterexample :
    (getAggregateData emptyPages "GOOGL" 1 .MINUTES 0 3 true 0 2).1 =
        [⟨"GOOGL", 1, "minute", 1, 3, some true, 0⟩] ∧
      emptyPages ⟨"GOOGL", 1, "minute", 1, 3, some true, 0⟩ = [] ∧
      (getAggregateData emptyPages "GOOGL" 1 .MINUTES 0 3 true 0 2).2 =
        .limitExceeded ∧
      (getAggregateData emptyPages "GOOGL" 1 .MINUTES 0 3 true 0 2).2 ≠
        .ok [] := by decide

/-- C3 (amended with `1 ≤ limit`): when some response during a
`getAggregateData` fetch is empty, that request is the last one issued —
no older window and no final remainder is requested — and the fetch
terminates successfully with exactly the bars of the earlier (more recent)
requests, in order. -/
theorem c3_empty_page_ends_pagination (get_aggs : AggReq → List Agg) (ticker : String)
    (interval : Int) (interval_timespan : Duration) (date_from date_to : Int)
    (adjusted : Bool) (limit max_date_range : Nat) (hlimit : 1 ≤ limit) (i : Nat)
    (hi : i < (getAggregateData get_aggs ticker interval interval_timespan date_from
      date_to adjusted limit max_date_range).1.length)
    (hempty : get_aggs ((getAggregateData get_aggs ticker interval interval_timespan
      date_from date_to adjusted limit max_date_range).1.get ⟨i, hi⟩) = []) :
    i + 1 = (getAggregateData get_aggs ticker interval interval_timespan date_from
        date_to adjusted limit max_date_range).1.length ∧
      (getAggregateData get_aggs ticker interval interval_timespan date_from date_to
          adjusted limit max_date_range).2 =
        .ok

          ((((getAggregateData get_aggs ticker interval interval_timespan date_from
            date_to adjusted limit max_date_range).1.take i).map get_aggs).flatten) := by
  obtain ⟨rs, r, hsplit, hgood, hlimres, hokres⟩ :=
    getAggsLoop_trace get_aggs ticker interval interval_timespan date_from adjusted limit
      max_date_range _ date_to []
      (getAggregateData get_aggs ticker interval interval_timespan date_from date_to
        adjusted limit max_date_range).1
      (getAggregateData get_aggs ticker interval interval_timespan date_from date_to
        adjusted limit max_date_range).2
      (by rw [getAggregateData_eq_some])
  have hlen : (getAggregateData get_aggs ticker interval interval_timespan date_from
      date_to adjusted limit max_date_range).1.length = rs.length + 1 := by
    rw [hsplit]; simp
  by_cases hcase : i < rs.length
  · exfalso
    have hx : (getAggregateData get_aggs ticker interval interval_timespan date_from
        date_to adjusted limit max_date_range).1.get ⟨i, hi⟩ = rs.get ⟨i, hcase⟩ := by
      rw [List.get_eq_getElem, List.get_eq_getElem, List.getElem_of_eq hsplit,
        List.getElem_append_left]
    rw [hx] at hempty
    have := (hgood _ (List.get_mem rs i hcase)).1
    rw [hempty] at this
    exact absurd this (by simp)
  · have hieq : i = rs.length := by omega
    have hx : (getAggregateData get_aggs ticker interval interval_timespan date_from
        date_to adjusted limit max_date_range).1.get ⟨i, hi⟩ = r := by
      rw [List.get_eq_getElem, List.getElem_of_eq hsplit,
        List.getElem_concat_length rs r i hieq]
    rw [hx] at hempty
    have hres := hokres (by rw [hempty]; simpa using hlimit)
    refine ⟨by omega, ?_⟩
    rw [hres, hsplit, hieq, List.take_left]
    simp [hempty]

/-- Witness for `c3_empty_page_ends_pagination`: a single remainder request
returning the empty page with `limit = 1`. -/
theorem c3_empty_page_ends_pagination_witness :
    0 + 1 = (getAggregateData emptyPages "GOOGL" 1 .MINUTES 0 1 true 1 2).1.length ∧
      (getAggregateData emptyPages "GOOGL" 1 .MINUTES 0 1 true 1 2).2 =
        .ok

          ((((getAggregateData emptyPages "GOOGL" 1 .MINUTES 0 1 true 1 2).1.take
            0).map emptyPages).flatten) :=
  c3_empty_page_ends_pagination emptyPages "GOOGL" 1 .MINUTES 0 1 true 1 2
    (by decide) 0 (by decide) (by decide)

/-- C1 counterexample: take `window = 90`, `DateRange(0, 230)`, so
`to - from = 230 = 2 * 90 + 50` (`k = 2`, `r = 50`, `0 < r < window`), with
every page below the limit (each page holds exactly one bar, `limit = 2`).
The fetch does issue `k + 1 = 3` requests, but the remainder request is
`[0, 48]`, not the claimed `[from, to - k*window - 1day] = [0, 49]`: each
loop step walks back `window + 1` days, not `window`. -/
theorem c1_counterexample :
    (230 : Int) - 0 = 2 * 90 + 50 ∧
      (getAggregateData oneBarPages "GOOGL" 1 .MINUTES 0 230 true 2 90).1.map
        (fun q => (oneBarPages q).length) = [1, 1, 1] ∧
      (getAggregateData oneBarPages "GOOGL" 1 .MINUTES 0 230 true 2 90).1 =
        [⟨"GOOGL", 1, "minute", 140, 230, some true, 2⟩,
          ⟨"GOOGL", 1, "minute", 49, 139, some true, 2⟩,
          ⟨"GOOGL", 1, "minute", 0, 48, none, 2⟩] ∧
      (getAggregateData oneBarPages "GOOGL" 1 .MINUTES 0 230 true 2 90).1.getLast? ≠
        some ⟨"GOOGL", 1, "minute", 0, 230 - 2 * 90 - 1, none, 2⟩ := by decide

/-- C1 (amended): for `to - from = k*window + r` with `0 < r < window`,
`k ≥ 1` and additionally `k ≤ r + 1` (each loop step consumes `window + 1`
days, so for smaller `r` fewer than `k` windows are issued), a
`getAggregateData` fetch with every page non-empty and below the limit issues
exactly `k + 1` requests: the `j`-th window request (`j = 0 … k-1`) covers
the `window`-day span `[to - j*(window+1) - window, to - j*(window+1)]`, and
the final remainder request covers `[from, to - k*(window+1)]` — that is,
`to - k*window - k` days, not `to - k*window - 1 day`. -/
theorem c1_window_requests (get_aggs : AggReq → List Agg) (ticker : String)
    (interval : Int) (interval_timespan : Duration) (date_from date_to : Int)
    (adjusted : Bool) (limit max_date_range k r : Nat)
    (hgood : ∀ q : AggReq, 0 < (get_aggs q).length ∧ (get_aggs q).length < limit)
    (hk : 1 ≤ k) (_hr : 0 < r) (hrw : r < max_date_range) (hkr : k ≤ r + 1)
    (hd : date_to - date_from = (k : Int) * max_date_range + r) :
    (getAggregateData get_aggs ticker interval interval_timespan date_from date_to
        adjusted limit max_date_range).1 =
      (List.range k).map (fun j =>
        ⟨ticker, interval, interval_timespan.value,
          date_to - j * ((max_date_range : Int) + 1) - max_date_range,
          date_to - j * ((max_date_range : Int) + 1), some adjusted, limit⟩)
      ++ [⟨ticker, interval, interval_timespan.value, date_from,
        date_to - k * ((max_date_range : Int) + 1), none, limit⟩] ∧
    (getAggregateData get_aggs ticker interval interval_timespan date_from date_to
      adjusted limit max_date_range).1.length = k + 1 := by
  have ht1 : -1 ≤ (r : Int) - k := by omega
  have ht2 : (r : Int) - k < max_date_range := by omega
  have hgap : date_to - date_from =
      (k : Int) * ((max_date_range : Int) + 1) + ((r : Int) - k) := by
    rw [hd]; ring
  have h1 : (k : Int) ≤ (k : Int) * ((max_date_range : Int) + 1) :=
    le_mul_of_one_le_right (by positivity) (by omega)
  have h2 : (k : Int) - 1 ≤ date_to - date_from := by linarith
  have hfuel : k ≤ (date_to - date_from).toNat + 2 := by omega
  obtain ⟨res, hres⟩ := getAggsLoop_windows get_aggs ticker interval interval_timespan
    date_from adjusted limit max_date_range hgood k ((r : Int) - k) ht1 ht2
    ((date_to - date_from).toNat + 2) date_to [] hfuel hgap
  have hD := getAggregateData_eq_some get_aggs ticker interval interval_timespan
    date_from date_to adjusted limit max_date_range
  rw [hres] at hD
  injection hD with hD
  have hfinal : date_from + ((r : Int) - k) =
      date_to - (k : Int) * ((max_date_range : Int) + 1) := by linarith
  constructor
  · rw [← hD]
    rw [← hfinal]
  · rw [← hD]
    simp

/-- Witness for `c1_window_requests`: `window = 90`, `DateRange(0, 230)`
(`k = 2`, `r = 50`), one-bar pages below `limit = 2`. -/
theorem c1_window_requests_witness :
    (getAggregateData oneBarPages "GOOGL" 1 .MINUTES 0 230 true 2 90).1 =
      (List.range 2).map (fun j =>
        ⟨"GOOGL", 1, Duration.MINUTES.value,
          230 - j * ((90 : Int) + 1) - 90, 230 - j * ((90 : Int) + 1), some true, 2⟩)
      ++ [⟨"GOOGL", 1, Duration.MINUTES.value, 0, 230 - 2 * ((90 : Int) + 1), none,
        2⟩] ∧
    (getAggregateData oneBarPages "GOOGL" 1 .MINUTES 0 230 true 2 90).1.length =
      2 + 1 :=
  c1_window_requests oneBarPages "GOOGL" 1 .MINUTES 0 230 true 2 90 2 50
    (fun _ => by simp [oneBarPages]) (by decide) (by decide) (by decide) (by decide)
    (by decide)

/-- C7: the code passes `adjusted=` on every window request but omits it on
the final remainder request — in both `getAggregateData` (lines 84-91) and
`getWriteAggData` (lines 179-186).  With window 2 over `DateRange(0, 7)` and
`adjusted = true`, the two window requests carry `some true` but the
remainder request carries `none` (the client library's default), so the
caller's flag is not passed on every request as the spec claims. -/
theorem c7_adjusted_dropped_on_remainder :
    (getAggregateData oneBarPages "GOOGL" 1 .MINUTES 0 7 true 2 2).1.map
        AggReq.adjusted = [some true, some true, none] ∧
      (getWriteAggData oneBarPages "GOOGL" 1 .MINUTES 0 7 true 2 2).1.map
        AggReq.adjusted = [some true, some true, none] := by decide

/-- The two after-loop blocks agree: when the in-memory one returns `.ok`,
the streaming one writes exactly the page the in-memory one appends. -/
theorem getWriteAggFinal_agrees (get_aggs : AggReq → List Agg) (ticker : String)
    (interval : Int) (interval_timespan : Duration) (date_from : Int) (limit : Nat)
    (curr_date_to : Int) (output : List Agg) (reqs : List AggReq) (out : List Agg)
    (h : getAggsFinal get_aggs ticker interval interval_timespan date_from limit
      curr_date_to output = (reqs, .ok out)) :
    ∃ pages, getWriteAggFinal get_aggs ticker interval interval_timespan date_from limit
        curr_date_to = (reqs, pages, .done) ∧ output ++ pages.flatten = out := by
  revert h
  simp only [getAggsFinal, getWriteAggFinal]
  split_ifs with h1 h2
  · intro h
    injection h with hreq hres
    exact absurd hres (by simp)
  · intro h
    injection h with hreq hres
    injection hres with hres
    subst hreq
    exact ⟨[], rfl, by simp [hres]⟩
  · intro h
    injection h with hreq hres
    injection hres with hres
    subst hreq
    exact ⟨[get_aggs ⟨ticker, interval, interval_timespan.value, date_from,
      curr_date_to, none, limit⟩], rfl, by simp [hres]⟩

/-- The streaming loop refines the in-memory loop: on any run where the
in-memory loop returns `.ok out`, the streaming loop issues exactly the same
requests, succeeds, and the pages it writes concatenate (after whatever was
already accumulated) to `out`. -/
theorem getWriteAggLoop_agrees (get_aggs : AggReq → List Agg) (ticker : String)
    (interval : Int) (interval_timespan : Duration) (date_from : Int) (adjusted : Bool)
    (limit : Nat) (max_date_range : Nat) :
    ∀ (fuel : Nat) (curr_date_to : Int) (output : List Agg) (reqs : List AggReq)
      (out : List Agg),
      getAggsLoop get_aggs ticker interval interval_timespan date_from adjusted limit
        max_date_range fuel curr_date_to output = some (reqs, .ok out) →
      ∃ pages,
        getWriteAggLoop get_aggs ticker interval interval_timespan date_from adjusted
          limit max_date_range fuel curr_date_to = some (reqs, pages, .done) ∧
        output ++ pages.flatten = out := by
  intro fuel
  induction fuel with
  | zero =>
    intro curr_date_to output reqs out h
    rw [getAggsLoop] at h
    rw [getWriteAggLoop]
    split at h
    · exact absurd h (by simp)
    · next hc =>
      rw [if_neg hc]
      injection h with h
      obtain ⟨pages, hw, hflat⟩ := getWriteAggFinal_agrees get_aggs ticker interval
        interval_timespan date_from limit curr_date_to output reqs out h
      exact ⟨pages, by rw [hw], hflat⟩
  | succ fuel ih =>
    intro curr_date_to output reqs out h
    rw [getAggsLoop] at h
    rw [getWriteAggLoop]
    split at h
    case isFalse hc =>
      rw [if_neg hc]
      injection h with h
      obtain ⟨pages, hw, hflat⟩ := getWriteAggFinal_agrees get_aggs ticker interval
        interval_timespan date_from limit curr_date_to output reqs out h
      exact ⟨pages, by rw [hw], hflat⟩
    case isTrue hc =>
      rw [if_pos hc]
      dsimp only at h ⊢
      split at h
      · next hlim =>
        rw [if_pos hlim]
        injection h with h
        injection h with h1 h2
        exact absurd h2 (by simp)
      · next hlim =>
        rw [if_neg hlim]
        split at h
        · next hz =>
          rw [if_pos hz]
          injection h with h
          injection h with h1 h2
          injection h2 with h2
          subst h1
          exact ⟨[], rfl, by simp [h2]⟩
        · next hz =>
          rw [if_neg hz]
          revert h
          cases hrec : getAggsLoop get_aggs ticker interval interval_timespan date_from
              adjusted limit max_date_range fuel
              (curr_date_to - (max_date_range : Int) - 1)
              (output ++ get_aggs ⟨ticker, interval, interval_timespan.value,
                curr_date_to - (max_date_range : Int), curr_date_to, some adjusted,
                limit⟩) with
          | none => intro h; exact absurd h (by simp)
          | some p =>
            obtain ⟨reqs1, res1⟩ := p
            intro h
            injection h with h
            injection h with h1 h2
            subst h1
            subst h2
            obtain ⟨pages1, hw, hflat⟩ := ih _ _ _ _ hrec
            rw [hw]
            refine ⟨get_aggs ⟨ticker, interval, interval_timespan.value,
              curr_date_to - (max_date_range : Int), curr_date_to, some adjusted,
              limit⟩ :: pages1, rfl, ?_⟩
            rw [List.flatten_cons, ← List.append_assoc]
            exact hflat

/-- C8: on every run where the in-memory variant `getAggregateData` raises no
exception (returns `.ok out`), the streaming variant `getWriteAggData` on the
same inputs issues exactly the same requests, raises no exception either, and
the pages it hands to `writeAggsToCSV`, concatenated in writing order, are
exactly the bars `out` the in-memory variant returns. -/
theorem c8_streaming_matches_in_memory (get_aggs : AggReq → List Agg) (ticker : String)
    (interval : Int) (interval_timespan : Duration) (date_from date_to : Int)
    (adjusted : Bool) (limit max_date_range : Nat) (out : List Agg)
    (h : (getAggregateData get_aggs ticker interval interval_timespan date_from date_to
      adjusted limit max_date_range).2 = .ok out) :
    (getWriteAggData get_aggs ticker interval interval_timespan date_from date_to
        adjusted limit max_date_range).1 =
      (getAggregateData get_aggs ticker interval interval_timespan date_from date_to
        adjusted limit max_date_range).1 ∧
    (getWriteAggData get_aggs ticker interval interval_timespan date_from date_to
      adjusted limit max_date_range).2.2 = .done ∧
    (getWriteAggData get_aggs ticker interval interval_timespan date_from date_to
      adjusted limit max_date_range).2.1.flatten = out := by
  have hD' : getAggsLoop get_aggs ticker interval interval_timespan date_from adjusted
      limit max_date_range ((date_to - date_from).toNat + 2) date_to [] =
      some ((getAggregateData get_aggs ticker interval interval_timespan date_from
        date_to adjusted limit max_date_range).1, .ok out) := by
    rw [getAggregateData_eq_some, ← h]
  obtain ⟨pages, hw, hflat⟩ := getWriteAggLoop_agrees get_aggs ticker interval
    interval_timespan date_from adjusted limit max_date_range _ date_to [] _ _ hD'
  have hWD : getWriteAggLoop get_aggs ticker interval interval_timespan date_from
      adjusted limit max_date_range ((date_to - date_from).toNat + 2) date_to =
      some (getWriteAggData get_aggs ticker interval interval_timespan date_from date_to
        adjusted limit max_date_range) :=
    (Option.some_get _).symm
  rw [hw] at hWD
  injection hWD with hWD
  refine ⟨?_, ?_, ?_⟩ <;> rw [← hWD]
  simpa using hflat

/-- Witness for `c8_streaming_matches_in_memory`: window 2 over
`DateRange(0, 7)` with one-bar pages below `limit = 2`. -/
theorem c8_streaming_matches_in_memory_witness :
    (getWriteAggData oneBarPages "GOOGL" 1 .MINUTES 0 7 true 2 2).1 =
        (getAggregateData oneBarPages "GOOGL" 1 .MINUTES 0 7 true 2 2).1 ∧
      (getWriteAggData oneBarPages "GOOGL" 1 .MINUTES 0 7 true 2 2).2.2 = .done ∧
      (getWriteAggData oneBarPages "GOOGL" 1 .MINUTES 0 7 true 2 2).2.1.flatten =
        [sampleAgg, sampleAgg, sampleAgg] :=
  c8_streaming_matches_in_memory oneBarPages "GOOGL" 1 .MINUTES 0 7 true 2 2
    [sampleAgg, sampleAgg, sampleAgg] (by decide)

/-- Strict lexicographic comparison of two character lists by code point. -/
def charListLtb : List Char → List Char → Bool
  | [], [] => false
  | [], _ :: _ => true
  | _ :: _, [] => false
  | a :: as, b :: bs =>
    if a.toNat < b.toNat then true
    else if b.toNat < a.toNat then false
    else charListLtb as bs

/-- Strict lexicographic order on strings (the ascending `sort='ticker'`
order of the provider), made explicit so that it is executable. -/
def strLtb (s₁ s₂ : String) : Bool := charListLtb s₁.data s₂.data

/-- Strict ordering of ticker records by symbol. -/
def tickerLt (a b : Ticker) : Prop := strLtb a.ticker b.ticker = true

instance (a b : Ticker) : Decidable (tickerLt a b) := by
  exact inferInstanceAs (Decidable (strLtb a.ticker b.ticker = true))

/-- What the provider hypothesis of §4.2's invariant says about a single
request: every returned record's symbol is strictly greater than the
request's `ticker_gt` cursor (vacuous for the cursor-less first request). -/
def cursorBound : Option String → Ticker → Prop
  | none, _ => True
  | some s, t => strLtb s t.ticker = true

instance (c : Option String) (t : Ticker) : Decidable (cursorBound c t) := by
  cases c with
  | none => exact isTrue True.intro
  | some s => exact inferInstanceAs (Decidable (strLtb s t.ticker = true))

/-- A ticker record whose payload fields are all blank except the symbol. -/
def mkTicker (s : String) : Ticker :=
  ⟨s, true, none, none, none, none, none, none, none, none, none, none, none, none,
    none, none⟩

/-- A provider serving the 3-page listing of §8: `[AAA, AAB]`, then
`[AAC, AAD]` above cursor `AAB`, then the empty page. -/
def tickerPages : Option String → List Ticker := fun c =>
  if c = none then [mkTicker "AAA", mkTicker "AAB"]
  else if c = some "AAB" then [mkTicker "AAC", mkTicker "AAD"]
  else []

/-- Trace structure of the cursor-pagination loop: on completion the output is
everything accumulated plus every fetched page in cursor order; the loop
stops iff the current page is empty, so every cursor before the last got a
non-empty page and the last cursor's page is empty. -/
theorem getAllTickersLoop_trace (list_tickers : Option String → List Ticker) :
    ∀ (fuel : Nat) (output tickers : List Ticker) (cursors : List (Option String))
      (out : List Ticker),
      getAllTickersLoop list_tickers fuel output tickers = some (cursors, out) →
      out = output ++ (cursors.map list_tickers).flatten ∧
        (tickers = [] → cursors = []) ∧
        (cursors = [] → tickers = []) ∧
        (∀ c ∈ cursors.dropLast, list_tickers c ≠ []) ∧
        (∀ c ∈ cursors.getLast?, list_tickers c = []) := by
  intro fuel
  induction fuel with
  | zero =>
    intro output tickers cursors out h
    rw [getAllTickersLoop] at h
    split at h
    · exact absurd h (by simp)
    · next hc =>
      injection h with h
      injection h with h1 h2
      subst h1
      subst h2
      have htick : tickers = [] := by
        rcases tickers with _ | _
        · rfl
        · exact absurd (by simp) hc
      exact ⟨by simp, fun _ => rfl, fun _ => htick, by simp, by simp⟩
  | succ fuel ih =>
    intro output tickers cursors out h
    rw [getAllTickersLoop] at h
    split at h
    case isFalse hc =>
      injection h with h
      injection h with h1 h2
      subst h1
      subst h2
      have htick : tickers = [] := by
        rcases tickers with _ | _
        · rfl
        · exact absurd (by simp) hc
      exact ⟨by simp, fun _ => rfl, fun _ => htick, by simp, by simp⟩
    case isTrue hc =>
      dsimp only at h
      revert h
      cases hrec : getAllTickersLoop list_tickers fuel
          (output ++ list_tickers (some (output.getLast?.getD default).ticker))
          (list_tickers (some (output.getLast?.getD default).ticker)) with
      | none => intro h; exact absurd h (by simp)
      | some p =>
        obtain ⟨cursors1, out1⟩ := p
        intro h
        injection h with h
        injection h with h1 h2
        subst h1
        subst h2
        obtain ⟨hout, hnext, hprev, hdrop, hlast⟩ := ih _ _ _ _ hrec
        refine ⟨?_, ?_, ?_, ?_, ?_⟩
        · rw [hout]
          simp
        · intro ht
          rw [ht] at hc
          simp at hc
        · intro habs
          simp at habs
        · intro c hcmem
          rcases cursors1 with _ | ⟨c2, cursors2⟩
          · simp at hcmem
          · rw [List.dropLast_cons₂] at hcmem
            rcases List.mem_cons.mp hcmem with hceq | hcmem2
            · subst hceq
              intro hpagenil
              have hc1 := hnext hpagenil
              simp at hc1
            · exact hdrop c hcmem2
        · intro c hcmem
          rcases cursors1 with _ | ⟨c2, cursors2⟩
          · simp at hcmem
            subst hcmem
            exact hprev rfl
          · rw [List.getLast?_cons_cons] at hcmem
            exact hlast c hcmem

/-- Trace structure of `getAllTickers`: the first request carries no cursor,
the output is the concatenation of every fetched page in request order, every
request before the last got a non-empty page, and the last request's page is
empty. -/
theorem getAllTickers_trace (list_tickers : Option String → List Ticker) (fuel : Nat)
    (reqs : List (Option String)) (out : List Ticker)
    (h : getAllTickers list_tickers fuel = some (reqs, out)) :
    out = (reqs.map list_tickers).flatten ∧
      (∀ c ∈ reqs.dropLast, list_tickers c ≠ []) ∧
      (∀ c ∈ reqs.getLast?, list_tickers c = []) := by
  rw [getAllTickers] at h
  revert h
  cases hloop : getAllTickersLoop list_tickers fuel (list_tickers none)
      (list_tickers none) with
  | none => intro h; exact absurd h (by simp)
  | some p =>
    obtain ⟨cursors1, out1⟩ := p
    intro h
    injection h with h
    injection h with h1 h2
    subst h1
    subst h2
    obtain ⟨hout, hnext, hprev, hdrop, hlast⟩ :=
      getAllTickersLoop_trace list_tickers fuel _ _ _ _ hloop
    refine ⟨?_, ?_, ?_⟩
    · rw [hout]
      simp
    · intro c hcmem
      rcases cursors1 with _ | ⟨c2, cursors2⟩
      · simp at hcmem
      · rw [List.dropLast_cons₂] at hcmem
        rcases List.mem_cons.mp hcmem with hceq | hcmem2
        · subst hceq
          intro hnil
          have hc1 := hnext hnil
          simp at hc1
        · exact hdrop c hcmem2
    · intro c hcmem
      rcases cursors1 with _ | ⟨c2, cursors2⟩
      · simp at hcmem
        subst hcmem
        exact hprev rfl
      · rw [List.getLast?_cons_cons] at hcmem
        exact hlast c hcmem

/-- The cursor-pagination loop preserves strict symbol ordering: if the
accumulated output is strictly increasing and every fetched page is strictly
increasing with all symbols above its request's cursor, the final output is
strictly increasing. -/
theorem getAllTickersLoop_chain (list_tickers : Option String → List Ticker) :
    ∀ (fuel : Nat) (output tickers : List Ticker) (cursors : List (Option String))
      (out : List Ticker),
      getAllTickersLoop list_tickers fuel output tickers = some (cursors, out) →
      (∀ c ∈ cursors, (list_tickers c).Chain' tickerLt ∧
        ∀ t ∈ list_tickers c, cursorBound c t) →
      output.Chain' tickerLt → out.Chain' tickerLt := by
  intro fuel
  induction fuel with
  | zero =>
    intro output tickers cursors out h hpages hout
    rw [getAllTickersLoop] at h
    split at h
    · exact absurd h (by simp)
    · injection h with h
      injection h with h1 h2
      subst h2
      exact hout
  | succ fuel ih =>
    intro output tickers cursors out h hpages hout
    rw [getAllTickersLoop] at h
    split at h
    case isFalse =>
      injection h with h
      injection h with h1 h2
      subst h2
      exact hout
    case isTrue hc =>
      dsimp only at h
      revert h
      cases hrec : getAllTickersLoop list_tickers fuel
          (output ++ list_tickers (some (output.getLast?.getD default).ticker))
          (list_tickers (some (output.getLast?.getD default).ticker)) with
      | none => intro h; exact absurd h (by simp)
      | some p =>
        obtain ⟨cursors1, out1⟩ := p
        intro h
        injection h with h
        injection h with h1 h2
        subst h1
        subst h2
        have hhead := hpages _ (List.mem_cons_self _ _)
        have htail : ∀ c ∈ cursors1, (list_tickers c).Chain' tickerLt ∧
            ∀ t ∈ list_tickers c, cursorBound c t :=
          fun c hcm => hpages c (List.mem_cons_of_mem _ hcm)
        apply ih _ _ _ _ hrec htail
        apply List.chain'_append.mpr
        refine ⟨hout, hhead.1, ?_⟩
        intro x hx y hy
        have hxlast : output.getLast?.getD default = x := by
          rw [Option.mem_def] at hx
          rw [hx]
          rfl
        have hymem : y ∈
            list_tickers (some (output.getLast?.getD default).ticker) :=
          List.mem_of_mem_head? hy
        have hb := hhead.2 y hymem
        rw [← hxlast]
        exact hb

/-- C4: on the three-page listing `[AAA, AAB]`, `[AAC, AAD]`, `[]`,
`getAllTickers` returns `[AAA, AAB, AAC, AAD]`, makes exactly 3 requests, and
the successive cursors are: no cursor, then `"AAB"`, then `"AAD"` — each
being the last symbol of the output accumulated so far. -/
theorem c4_cursor_pagination_example :
    getAllTickers tickerPages 5 =
      some ([none, some "AAB", some "AAD"],
        [mkTicker "AAA", mkTicker "AAB", mkTicker "AAC", mkTicker "AAD"]) ∧
      ([none, some "AAB", some "AAD"] : List (Option String)).length = 3 := by decide

/-- C6 counterexample: `getAllTickers` validates nothing against the
configured page limit.  With `limit = 2` and the provider serving pages of
exactly 2 records, both non-empty pages reach the limit, yet the fetch does
not fail: it keeps issuing further cursor requests and returns all records
normally. -/
theorem c6_counterexample :
    2 ≤ (tickerPages none).length ∧
      2 ≤ (tickerPages (some "AAB")).length ∧
      getAllTickers tickerPages 5 =
        some ([none, some "AAB", some "AAD"],
          [mkTicker "AAA", mkTicker "AAB", mkTicker "AAC", mkTicker "AAD"]) := by
  decide

/-- C6 (amended): only the Range Paginator validates pages against the
provider limit — any response with count ≥ `limit` makes `getAggregateData`
fail with the retrieval-limit error.  `getAllTickers` performs no page-size
validation: every completed run returns the concatenation of all fetched
pages, pagination continues past every non-empty page whatever its size, and
it stops only at an empty page. -/
theorem c6_only_range_fetch_validates_limit :
    (∀ (get_aggs : AggReq → List Agg) (ticker : String) (interval : Int)
      (interval_timespan : Duration) (date_from date_to : Int) (adjusted : Bool)
      (limit max_date_range i : Nat)
      (hi : i < (getAggregateData get_aggs ticker interval interval_timespan date_from
        date_to adjusted limit max_date_range).1.length),
      limit ≤ (get_aggs ((getAggregateData get_aggs ticker interval interval_timespan
        date_from date_to adjusted limit max_date_range).1.get ⟨i, hi⟩)).length →
      (getAggregateData get_aggs ticker interval interval_timespan date_from date_to
        adjusted limit max_date_range).2 = .limitExceeded) ∧
    (∀ (list_tickers : Option String → List Ticker) (fuel : Nat)
      (reqs : List (Option String)) (out : List Ticker),
      getAllTickers list_tickers fuel = some (reqs, out) →
      out = (reqs.map list_tickers).flatten ∧
        (∀ c ∈ reqs.dropLast, list_tickers c ≠ []) ∧
        (∀ c ∈ reqs.getLast?, list_tickers c = [])) := by
  constructor
  · intro get_aggs ticker interval interval_timespan date_from date_to adjusted limit
      max_date_range i hi hlim
    obtain ⟨rs, r, hsplit, hgood, hlimres, hokres⟩ :=
      getAggsLoop_trace get_aggs ticker interval interval_timespan date_from adjusted
        limit max_date_range _ date_to []
        (getAggregateData get_aggs ticker interval interval_timespan date_from date_to
          adjusted limit max_date_range).1
        (getAggregateData get_aggs ticker interval interval_timespan date_from date_to
          adjusted limit max_date_range).2
        (by rw [getAggregateData_eq_some])
    have hlen : (getAggregateData get_aggs ticker interval interval_timespan date_from
        date_to adjusted limit max_date_range).1.length = rs.length + 1 := by
      rw [hsplit]; simp
    by_cases hcase : i < rs.length
    · exfalso
      have hx : (getAggregateData get_aggs ticker interval interval_timespan date_from
          date_to adjusted limit max_date_range).1.get ⟨i, hi⟩ = rs.get ⟨i, hcase⟩ := by
        rw [List.get_eq_getElem, List.get_eq_getElem, List.getElem_of_eq hsplit,
          List.getElem_append_left]
      rw [hx] at hlim
      have := (hgood _ (List.get_mem rs i hcase)).2
      omega
    · have hieq : i = rs.length := by omega
      have hx : (getAggregateData get_aggs ticker interval interval_timespan date_from
          date_to adjusted limit max_date_range).1.get ⟨i, hi⟩ = r := by
        rw [List.get_eq_getElem, List.getElem_of_eq hsplit,
          List.getElem_concat_length rs r i hieq]
      rw [hx] at hlim
      exact hlimres hlim
  · exact getAllTickers_trace

/-- Witness for `c6_only_range_fetch_validates_limit`: the range side at a
two-bar page with `limit = 2`, the ticker side at the three-page listing. -/
theorem c6_only_range_fetch_validates_limit_witness :
    (getAggregateData twoBarPages "GOOGL" 1 .MINUTES 0 1 true 2 2).2 =
        .limitExceeded ∧
      (([mkTicker "AAA", mkTicker "AAB", mkTicker "AAC", mkTicker "AAD"] :
          List Ticker) =
        (([none, some "AAB", some "AAD"] : List (Option String)).map
          tickerPages).flatten ∧
        (∀ c ∈ ([none, some "AAB", some "AAD"] : List (Option String)).dropLast,
          tickerPages c ≠ []) ∧
        (∀ c ∈ ([none, some "AAB", some "AAD"] : List (Option String)).getLast?,
          tickerPages c = [])) :=
  ⟨c6_only_range_fetch_validates_limit.1 twoBarPages "GOOGL" 1 .MINUTES 0 1 true 2 2 0
      (by decide) (by decide),
    c6_only_range_fetch_validates_limit.2 tickerPages 5 [none, some "AAB", some "AAD"]
      [mkTicker "AAA", mkTicker "AAB", mkTicker "AAC", mkTicker "AAD"] (by decide)⟩

/-- C10: if, on each request of a completed `getAllTickers` run, the provider
returns a page whose symbols are strictly increasing and all strictly greater
than the request's cursor, then the ticker symbols are strictly increasing
across the whole concatenated output. -/
theorem c10_output_strictly_increasing (list_tickers : Option String → List Ticker)
    (fuel : Nat) (reqs : List (Option String)) (out : List Ticker)
    (hrun : getAllTickers list_tickers fuel = some (reqs, out))
    (hpages : ∀ c ∈ reqs, (list_tickers c).Chain' tickerLt ∧
      ∀ t ∈ list_tickers c, cursorBound c t) :
    out.Chain' tickerLt := by
  rw [getAllTickers] at hrun
  revert hrun
  cases hloop : getAllTickersLoop list_tickers fuel (list_tickers none)
      (list_tickers none) with
  | none => intro hrun; exact absurd hrun (by simp)
  | some p =>
    obtain ⟨cursors1, out1⟩ := p
    intro hrun
    injection hrun with hrun
    injection hrun with h1 h2
    subst h1
    subst h2
    apply getAllTickersLoop_chain list_tickers fuel _ _ _ _ hloop
    · exact fun c hcm => hpages c (List.mem_cons_of_mem _ hcm)
    · exact (hpages none (List.mem_cons_self _ _)).1

/-- Witness for `c10_output_strictly_increasing`: the three-page listing
satisfies the provider hypothesis and its output is strictly increasing. -/
theorem c10_output_strictly_increasing_witness :
    ([mkTicker "AAA", mkTicker "AAB", mkTicker "AAC", mkTicker "AAD"] :
        List Ticker).Chain' tickerLt :=
  c10_output_strictly_increasing tickerPages 5 [none, some "AAB", some "AAD"]
    [mkTicker "AAA", mkTicker "AAB", mkTicker "AAC", mkTicker "AAD"]
    (by decide)
    (by
      intro c hc
      fin_cases hc
      · exact ⟨List.Chain.cons (by decide) List.Chain.nil, by decide⟩
      · exact ⟨List.Chain.cons (by decide) List.Chain.nil, by decide⟩
      · exact ⟨trivial, by decide⟩)

/-- C5: the header row written by `writeAggsToCSV` does NOT name, in order,
the fields serialized in the data rows: it has 9 column names and omits
`"low"`, while every data row has 10 cells with `agg.low` at index 3, so
positional decoding reads the `low` value under the `"close"` column.  The
data rows and the spec's §3 schema both include `low`; the header is a slip
in the code. -/
theorem c5_header_omits_low_column :
    aggsCSVHeader.length = 9 ∧
      (aggRowTuple "GOOGL" sampleAgg).length = 10 ∧
      Cell.str "low" ∉ aggsCSVHeader ∧
      aggsCSVHeader[3]? = some (.str "close") ∧
      (aggRowTuple "GOOGL" sampleAgg)[3]? = some (.int sampleAgg.low) ∧
      sampleAgg.low ≠ sampleAgg.close := by decide

/-- C9: for both CSV writers the header row is written iff the target file
did not previously exist or truncate mode was used.  Appending to a
non-existent file yields the header followed by the data rows; appending to
an existing file adds no duplicate header and puts the new rows after the
existing ones; truncate mode always (re)writes the header and discards the
prior contents. -/
theorem c9_header_iff_new_file_or_truncate :
    (∀ (ticker : String) (aggs : List Agg),
      writeAggsToCSV none ticker aggs true =
        aggsCSVHeader :: aggs.map (aggRowTuple ticker)) ∧
    (∀ (prior : List Row) (ticker : String) (aggs : List Agg),
      writeAggsToCSV (some prior) ticker aggs true =
        prior ++ aggs.map (aggRowTuple ticker)) ∧
    (∀ (file : Option (List Row)) (ticker : String) (aggs : List Agg),
      writeAggsToCSV file ticker aggs false =
        aggsCSVHeader :: aggs.map (aggRowTuple ticker)) ∧
    (∀ (tickers : List Ticker),
      writeTickersToCSV none tickers true =
        tickersCSVHeader :: tickers.map tickerRowTuple) ∧
    (∀ (prior : List Row) (tickers : List Ticker),
      writeTickersToCSV (some prior) tickers true =
        prior ++ tickers.map tickerRowTuple) ∧
    (∀ (file : Option (List Row)) (tickers : List Ticker),
      writeTickersToCSV file tickers false =
        tickersCSVHeader :: tickers.map tickerRowTuple) := by
  refine ⟨fun ticker aggs => ?_, fun prior ticker aggs => ?_,
    fun file ticker aggs => ?_, fun tickers => ?_, fun prior tickers => ?_,
    fun file tickers => ?_⟩ <;>
    simp [writeAggsToCSV, writeTickersToCSV]

end PolygonIOFetcher
